import Mathlib

/-!
Verification development for the LLM-Manager repository: a local LLM fleet
orchestrator and OpenAI-compatible gateway.  The repository ships the web UI
(TypeScript), launcher scripts, and extensive documentation of the backend
core (README `config-rebuild.json` format, `API接口文档.md`,
`core/monitor_manual.md`, and an implementation note quoting the token
extractor).  The backend core itself (lifecycle controller, pricing
evaluator, aggregation, log fan-out) is not part of the source tree, so
those components are modelled from the specification; components present in
the source (the web UI's `handleTierDelete`, `createLogStream`,
`LogConsole.handleLogMessage`, and the quoted Python token extractor) are
embedded from the source.
-/

namespace LLMManager

/-! ## Model lifecycle controller

Modelled from the spec: the backend controller (`ensure_running`,
`select_variant`, admission, eviction, idle sweeper) is not under `src/`;
only the README's `config-rebuild.json` layout (ordered launch variants with
`required_devices`, `memory_mb`, `bat_path`) and the web UI types describe
it.  The definitions below follow §4.7 of the spec.
-/

/-- A launch variant, as in `config-rebuild.json` (README): a name, a set of
required devices, a launch-script path and a device → reserved-MB map.
Variant order in the containing list is priority (first = highest). -/
structure Variant where
  name : String
  required_devices : List String
  bat_path : String
  memory_mb : List (String × Int)
deriving Repr, DecidableEq

/-- A variant is usable iff every required device is online. -/
def variantUsable (online : List String) (v : Variant) : Bool :=
  v.required_devices.all (fun d => online.contains d)

/-- Modelled from the spec: `select_variant` iterates launch variants in
declared order and returns the first whose `required_devices` are all
online. -/
def select_variant (vars : List Variant) (online : List String) : Option Variant :=
  vars.find? (variantUsable online)

/-- Lifecycle states of a model (spec §3 / web UI `ModelInfo.status`). -/
inductive MStatus
  | stopped
  | starting
  | routing
  | failed
deriving Repr, DecidableEq

/-- Per-model runtime state: lifecycle status, in-flight request counter,
last-activity timestamp, and the memory reserved by the selected variant. -/
structure MState where
  status : MStatus
  in_flight : Nat
  last_activity : ℚ
  reserved : List (String × Int)
deriving Repr, DecidableEq

/-- System state: the controller's model map, as an association list. -/
abbrev SysState := List (String × MState)

/-- Errors surfaced by the controller (spec §7). -/
inductive CtlError
  | ModelNotFound
  | NoUsableDevice
  | InsufficientMemory
deriving Repr, DecidableEq

/-- Memory a model state reserves on device `d`. -/
def reservedOn (st : MState) (d : String) : Int :=
  (st.reserved.filterMap (fun p => if p.1 = d then some p.2 else none)).sum

/-- Free memory on `d` once every model named in `plan` is (virtually)
reclaimed. -/
def freeAfterEvict (free : String → Int) (s : SysState) (plan : List String)
    (d : String) : Int :=
  free d + ((s.filter (fun e => decide (e.1 ∈ plan))).map
    (fun e => reservedOn e.2 d)).sum

/-- Admission (spec §4.7): after reclaiming `plan`, every device of the
candidate variant must have at least the reserved amount free. -/
def admissionOkAfter (free : String → Int) (s : SysState) (plan : List String)
    (v : Variant) : Bool :=
  v.memory_mb.all (fun p => decide (p.2 ≤ freeAfterEvict free s plan p.1))

/-- Modelled from the spec: eviction candidates are models currently in
`Routing` with `in_flight = 0`. -/
def evictionCandidates (s : SysState) : SysState :=
  s.filter (fun e => decide (e.2.status = MStatus.routing ∧ e.2.in_flight = 0))

/-- Insertion into a list sorted by ascending `last_activity`. -/
def insertByActivity (e : String × MState) :
    List (String × MState) → List (String × MState)
  | [] => [e]
  | f :: rest =>
    if e.2.last_activity ≤ f.2.last_activity then e :: f :: rest
    else f :: insertByActivity e rest

/-- Sort eviction candidates by ascending `last_activity` (oldest idle
first), as spec §4.7 step 1 orders them. -/
def sortByActivity : List (String × MState) → List (String × MState)
  | [] => []
  | e :: rest => insertByActivity e (sortByActivity rest)

/-- Modelled from the spec: virtually reclaim candidates, oldest idle first,
until admission would succeed; `none` when even reclaiming them all leaves
admission failing. -/
def evictPlan (free : String → Int) (s : SysState) (v : Variant) :
    List (String × MState) → List String → Option (List String)
  | [], plan => if admissionOkAfter free s plan v then some plan else none
  | c :: rest, plan =>
    if admissionOkAfter free s plan v then some plan
    else evictPlan free s v rest (plan ++ [c.1])

/-- Physically stop every model named in `plan`. -/
def stopModels (s : SysState) (plan : List String) : SysState :=
  s.map (fun e =>
    if e.1 ∈ plan then (e.1, { e.2 with status := MStatus.stopped, reserved := [] })
    else e)

/-- Move `name` to `Starting`, reserving the variant's memory. -/
def setStarting (s : SysState) (name : String) (v : Variant) : SysState :=
  s.map (fun e =>
    if e.1 = name then
      (e.1, { e.2 with status := MStatus.starting, reserved := v.memory_mb })
    else e)

/-- Modelled from the spec: `ensure_running` (§4.7).  Calls for a model
already `Starting` or `Routing` coalesce; otherwise select a variant
(`NoUsableDevice` when none qualifies), run admission with idle eviction,
and either spawn (`Starting`) or fail with `InsufficientMemory`. -/
def ensure_running (free : String → Int) (online : List String) (s : SysState)
    (name : String) (vars : List Variant) : Except CtlError SysState :=
  match s.lookup name with
  | none => .error .ModelNotFound
  | some st =>
    match st.status with
    | .routing => .ok s
    | .starting => .ok s
    | _ =>
      match select_variant vars online with
      | none => .error .NoUsableDevice
      | some v =>
        match evictPlan free s v (sortByActivity (evictionCandidates s)) [] with
        | none => .error .InsufficientMemory
        | some plan => .ok (setStarting (stopModels s plan) name v)

/-- Modelled from the spec: the idle sweeper stops any `Routing` model with
`in_flight = 0` whose idle time exceeds the timeout. -/
def idleSweep (s : SysState) (now timeout : ℚ) : SysState :=
  s.map (fun e =>
    if e.2.status = MStatus.routing ∧ e.2.in_flight = 0 ∧
        timeout < now - e.2.last_activity then
      (e.1, { e.2 with status := MStatus.stopped, reserved := [] })
    else e)

/-! ### Claim C1: variant selection picks the first usable variant -/

theorem select_variant_eq_some_iff (vars : List Variant) (online : List String)
    (v : Variant) :
    select_variant vars online = some v ↔
      ∃ i : Fin vars.length, vars.get i = v ∧ variantUsable online v = true ∧
        ∀ j : Fin vars.length, j.1 < i.1 →
          variantUsable online (vars.get j) = false := by
  induction vars with
  | nil =>
    constructor
    · intro h; cases h
    · rintro ⟨i, -⟩; exact absurd i.2 (by simp)
  | cons a t ih =>
    cases ha : variantUsable online a with
    | true =>
      constructor
      · intro h
        have hav : a = v := by
          have h' := h
          simp only [select_variant, List.find?_cons, ha] at h'
          exact Option.some_inj.mp h'
        refine ⟨⟨0, by simp⟩, by simpa using hav, hav ▸ ha, ?_⟩
        intro j hj
        exact absurd hj (by simp)
      · rintro ⟨⟨iv, hi⟩, hget, hus, hmin⟩
        cases iv with
        | zero =>
          have hav : a = v := by simpa using hget
          cases hav
          simp only [select_variant, List.find?_cons, ha]
        | succ k =>
          have h0 := hmin ⟨0, by simp⟩ (Nat.succ_pos k)
          rw [show ((a :: t).get ⟨0, by simp⟩) = a from rfl, ha] at h0
          cases h0
    | false =>
      have hstep : select_variant (a :: t) online = select_variant t online := by
        simp only [select_variant, List.find?_cons, ha]
      rw [hstep, ih]
      constructor
      · rintro ⟨⟨iv, hi⟩, hget, hus, hmin⟩
        refine ⟨⟨iv + 1, Nat.succ_lt_succ hi⟩, by simpa using hget, hus, ?_⟩
        intro j hj
        rcases j with ⟨jv, hjlt⟩
        cases jv with
        | zero => simpa using ha
        | succ k =>
          have hk : k < t.length := Nat.lt_of_succ_lt_succ hjlt
          have := hmin ⟨k, hk⟩ (Nat.lt_of_succ_lt_succ hj)
          simpa using this
      · rintro ⟨⟨iv, hi⟩, hget, hus, hmin⟩
        cases iv with
        | zero =>
          exfalso
          have hav : a = v := by simpa using hget
          rw [hav, hus] at ha
          cases ha
        | succ k =>
          refine ⟨⟨k, Nat.lt_of_succ_lt_succ hi⟩, by simpa using hget, hus, ?_⟩
          intro j hj
          have := hmin ⟨j.1 + 1, Nat.succ_lt_succ j.2⟩ (Nat.succ_lt_succ hj)
          simpa using this

/-- C1: `select_variant` returns the first launch variant in declared order
whose required devices are all online (a deterministic function of the
declared order and the online set); when no variant qualifies,
`ensure_running` on a non-coalescing model fails with `NoUsableDevice`. -/
theorem C1_variant_selection (vars : List Variant) (online : List String) :
    (∀ v : Variant,
      select_variant vars online = some v ↔
        ∃ i : Fin vars.length, vars.get i = v ∧ variantUsable online v = true ∧
          ∀ j : Fin vars.length, j.1 < i.1 →
            variantUsable online (vars.get j) = false) ∧
    (∀ (free : String → Int) (s : SysState) (name : String) (st : MState),
      s.lookup name = some st → st.status ≠ .routing → st.status ≠ .starting →
      select_variant vars online = none →
      ensure_running free online s name vars = .error .NoUsableDevice) := by
  constructor
  · intro v; exact select_variant_eq_some_iff vars online v
  · intro free s name st hlk hr hs hnone
    unfold ensure_running
    rw [hlk]
    cases hst : st.status with
    | routing => exact absurd hst hr
    | starting => exact absurd hst hs
    | stopped => simp [hnone]
    | failed => simp [hnone]

/-- A concrete variant requiring device gA. -/
def vGA : Variant := ⟨"GA", ["gA"], "ga.bat", [("gA", 8000)]⟩

/-- A concrete variant requiring device gB. -/
def vGB : Variant := ⟨"GB", ["gB"], "gb.bat", [("gB", 5000)]⟩

/-- A stopped, idle model state. -/
def stStopped : MState := ⟨MStatus.stopped, 0, 0, []⟩

/-- Witness for C1: with only gB online, the second variant is selected;
with no device online, `ensure_running` fails with `NoUsableDevice`. -/
theorem C1_variant_selection_witness :
    select_variant [vGA, vGB] ["gB"] = some vGB ∧
    ensure_running (fun _ => 0) [] [("m", stStopped)] "m" [vGA, vGB] =
      Except.error CtlError.NoUsableDevice := by
  constructor
  · exact ((C1_variant_selection [vGA, vGB] ["gB"]).1 vGB).mpr
      ⟨⟨1, by decide⟩, by decide, by decide, by decide⟩
  · exact (C1_variant_selection [vGA, vGB] []).2 (fun _ => 0) [("m", stStopped)]
      "m" stStopped (by decide) (by decide) (by decide) (by decide)

/-! ### Claim C2: no preemption of models with in-flight requests -/

theorem mem_of_mem_insertByActivity {e f : String × MState}
    {l : List (String × MState)} (h : e ∈ insertByActivity f l) :
    e = f ∨ e ∈ l := by
  induction l with
  | nil => simpa [insertByActivity] using h
  | cons g t ih =>
    rw [insertByActivity] at h
    split at h
    · rcases List.mem_cons.mp h with h1 | h2
      · exact Or.inl h1
      · exact Or.inr h2
    · rcases List.mem_cons.mp h with h1 | h2
      · exact Or.inr (h1 ▸ List.mem_cons_self g t)
      · rcases ih h2 with h3 | h4
        · exact Or.inl h3
        · exact Or.inr (List.mem_cons_of_mem g h4)

theorem mem_of_mem_sortByActivity {e : String × MState}
    {l : List (String × MState)} (h : e ∈ sortByActivity l) : e ∈ l := by
  induction l with
  | nil => rw [sortByActivity] at h; exact absurd h (List.not_mem_nil e)
  | cons g t ih =>
    rw [sortByActivity] at h
    rcases mem_of_mem_insertByActivity h with h1 | h2
    · exact h1 ▸ List.mem_cons_self g t
    · exact List.mem_cons_of_mem g (ih h2)

theorem evictPlan_names (free : String → Int) (s : SysState) (v : Variant) :
    ∀ (cands : List (String × MState)) (plan0 plan : List String),
      evictPlan free s v cands plan0 = some plan →
      ∀ n ∈ plan, n ∈ plan0 ∨ ∃ e ∈ cands, e.1 = n := by
  intro cands
  induction cands with
  | nil =>
    intro plan0 plan h n hn
    rw [evictPlan] at h
    split at h
    · cases h; exact Or.inl hn
    · cases h
  | cons c rest ih =>
    intro plan0 plan h n hn
    rw [evictPlan] at h
    split at h
    · cases h; exact Or.inl hn
    · rcases ih _ _ h n hn with hin | ⟨e, he, hen⟩
      · rcases List.mem_append.mp hin with h1 | h2
        · exact Or.inl h1
        · exact Or.inr ⟨c, List.mem_cons_self c rest, (List.mem_singleton.mp h2).symm⟩
      · exact Or.inr ⟨e, List.mem_cons_of_mem c he, hen⟩

theorem reservedOn_nonneg (st : MState) (d : String)
    (h : ∀ p ∈ st.reserved, (0:Int) ≤ p.2) : 0 ≤ reservedOn st d := by
  apply List.sum_nonneg
  intro x hx
  rcases List.mem_filterMap.mp hx with ⟨p, hp, hpe⟩
  by_cases hd : p.1 = d
  · rw [if_pos hd] at hpe
    cases hpe
    exact h p hp
  · rw [if_neg hd] at hpe
    cases hpe

theorem evictSum_mono (d : String) (plan plan' : List String)
    (hsub : ∀ n ∈ plan, n ∈ plan') :
    ∀ (s : SysState), (∀ e ∈ s, ∀ p ∈ e.2.reserved, (0:Int) ≤ p.2) →
    ((s.filter (fun e => decide (e.1 ∈ plan))).map
      (fun e => reservedOn e.2 d)).sum ≤
    ((s.filter (fun e => decide (e.1 ∈ plan'))).map
      (fun e => reservedOn e.2 d)).sum := by
  intro s
  induction s with
  | nil => intro _; simp
  | cons e t ih =>
    intro hnn
    have hnt : ∀ f ∈ t, ∀ p ∈ f.2.reserved, (0:Int) ≤ p.2 :=
      fun f hf => hnn f (List.mem_cons_of_mem e hf)
    have hne : ∀ p ∈ e.2.reserved, (0:Int) ≤ p.2 := hnn e (List.mem_cons_self e t)
    by_cases h1 : e.1 ∈ plan
    · have h2 : e.1 ∈ plan' := hsub _ h1
      simpa [List.filter_cons, h1, h2] using add_le_add_left (ih hnt) (reservedOn e.2 d)
    · by_cases h2 : e.1 ∈ plan'
      · have := le_add_of_nonneg_left (a := (((t.filter
          (fun f => decide (f.1 ∈ plan'))).map (fun f => reservedOn f.2 d)).sum))
          (reservedOn_nonneg e.2 d hne)
        simpa [List.filter_cons, h1, h2] using le_trans (ih hnt) this
      · simpa [List.filter_cons, h1, h2] using ih hnt

theorem admissionOkAfter_mono (free : String → Int) (s : SysState) (v : Variant)
    (hnn : ∀ e ∈ s, ∀ p ∈ e.2.reserved, (0:Int) ≤ p.2)
    (plan plan' : List String) (hsub : ∀ n ∈ plan, n ∈ plan')
    (h : admissionOkAfter free s plan v = true) :
    admissionOkAfter free s plan' v = true := by
  rw [admissionOkAfter, List.all_eq_true] at h ⊢
  intro p hp
  have h1 := of_decide_eq_true (h p hp)
  have h2 : freeAfterEvict free s plan p.1 ≤ freeAfterEvict free s plan' p.1 := by
    unfold freeAfterEvict
    exact add_le_add_left (evictSum_mono p.1 plan plan' hsub s hnn) (free p.1)
  exact decide_eq_true (le_trans h1 h2)

theorem evictPlan_eq_none (free : String → Int) (s : SysState) (v : Variant)
    (hnn : ∀ e ∈ s, ∀ p ∈ e.2.reserved, (0:Int) ≤ p.2) :
    ∀ (cands : List (String × MState)) (plan0 : List String),
      admissionOkAfter free s (plan0 ++ cands.map Prod.fst) v = false →
      evictPlan free s v cands plan0 = none := by
  intro cands
  induction cands with
  | nil =>
    intro plan0 hf
    rw [List.map_nil, List.append_nil] at hf
    rw [evictPlan, if_neg]
    rw [hf]
    exact Bool.false_ne_true
  | cons c rest ih =>
    intro plan0 hf
    have hc : admissionOkAfter free s plan0 v = false := by
      cases hcc : admissionOkAfter free s plan0 v with
      | false => rfl
      | true =>
        have := admissionOkAfter_mono free s v hnn plan0
          (plan0 ++ (c :: rest).map Prod.fst) (fun n hn => List.mem_append_left _ hn) hcc
        rw [this] at hf
        cases hf
    rw [evictPlan, if_neg (by rw [hc]; exact Bool.false_ne_true)]
    apply ih
    have : plan0 ++ [c.1] ++ rest.map Prod.fst = plan0 ++ (c :: rest).map Prod.fst := by
      simp
    rw [this]
    exact hf

theorem sysLookup_cons (a k : String) (st : MState) (t : SysState) :
    List.lookup a ((k, st) :: t) = if a = k then some st else List.lookup a t := by
  by_cases h : a = k
  · subst h; simp [List.lookup_cons]
  · simp [List.lookup_cons, beq_false_of_ne h, h]

theorem stopModels_cons (k : String) (st : MState) (t : SysState)
    (plan : List String) :
    stopModels ((k, st) :: t) plan =
      (if k ∈ plan then (k, { st with status := MStatus.stopped, reserved := [] })
       else (k, st)) :: stopModels t plan := rfl

theorem setStarting_cons (k : String) (st : MState) (t : SysState)
    (target : String) (v : Variant) :
    setStarting ((k, st) :: t) target v =
      (if k = target then
        (k, { st with status := MStatus.starting, reserved := v.memory_mb })
       else (k, st)) :: setStarting t target v := rfl

theorem idleSweep_cons (k : String) (st : MState) (t : SysState)
    (now timeout : ℚ) :
    idleSweep ((k, st) :: t) now timeout =
      (if st.status = MStatus.routing ∧ st.in_flight = 0 ∧
          timeout < now - st.last_activity then
        (k, { st with status := MStatus.stopped, reserved := [] })
       else (k, st)) :: idleSweep t now timeout := rfl

theorem stopModels_lookup (s : SysState) (plan : List String) (name : String) :
    (stopModels s plan).lookup name =
      if name ∈ plan then
        (s.lookup name).map
          (fun st => { st with status := MStatus.stopped, reserved := [] })
      else s.lookup name := by
  induction s with
  | nil => simp [stopModels]
  | cons e t ih =>
    rcases e with ⟨k, st⟩
    rw [stopModels_cons]
    by_cases hk : name = k
    · subst hk
      by_cases hp : name ∈ plan
      · simp [sysLookup_cons, hp]
      · simp [sysLookup_cons, hp]
    · by_cases hkp : k ∈ plan
      · simp [sysLookup_cons, hk, hkp, ih]
      · simp [sysLookup_cons, hk, hkp, ih]

theorem setStarting_lookup (s : SysState) (target : String) (v : Variant)
    (name : String) :
    (setStarting s target v).lookup name =
      if name = target then
        (s.lookup name).map
          (fun st => { st with status := MStatus.starting, reserved := v.memory_mb })
      else s.lookup name := by
  induction s with
  | nil => simp [setStarting]
  | cons e t ih =>
    rcases e with ⟨k, st⟩
    rw [setStarting_cons]
    by_cases hk : name = k
    · subst hk
      by_cases ht : name = target
      · simp [sysLookup_cons, ht]
      · simp [sysLookup_cons, ht]
    · by_cases ht : k = target
      · have hnt : name ≠ target := fun h => hk (h.trans ht.symm)
        simp [sysLookup_cons, hk, ht, hnt, ih]
      · simp [sysLookup_cons, hk, ht, ih]

theorem idleSweep_lookup_pos (s : SysState) (now timeout : ℚ) (m : String)
    (st : MState) (hlk : s.lookup m = some st) (hpos : 0 < st.in_flight) :
    (idleSweep s now timeout).lookup m = some st := by
  induction s with
  | nil => cases hlk
  | cons e t ih =>
    rcases e with ⟨k, u⟩
    rw [idleSweep_cons]
    by_cases hk : m = k
    · subst hk
      have hu : u = st := by
        have h := hlk
        rw [sysLookup_cons, if_pos rfl] at h
        exact Option.some_inj.mp h
      subst hu
      have hcond : ¬ (u.status = MStatus.routing ∧ u.in_flight = 0 ∧
          timeout < now - u.last_activity) := by
        rintro ⟨-, h2, -⟩
        omega
      rw [if_neg hcond, sysLookup_cons, if_pos rfl]
    · have hlk' : t.lookup m = some st := by
        have h := hlk
        rw [sysLookup_cons, if_neg hk] at h
        exact h
      by_cases hc : (u.status = MStatus.routing ∧ u.in_flight = 0 ∧
          timeout < now - u.last_activity)
      · rw [if_pos hc, sysLookup_cons, if_neg hk]
        exact ih hlk'
      · rw [if_neg hc, sysLookup_cons, if_neg hk]
        exact ih hlk'

theorem lookup_of_mem_nodup (s : SysState) (hnd : (s.map Prod.fst).Nodup)
    (e : String × MState) (he : e ∈ s) : s.lookup e.1 = some e.2 := by
  induction s with
  | nil => cases he
  | cons f t ih =>
    rcases f with ⟨k, u⟩
    rw [List.map_cons] at hnd
    have h0 := List.nodup_cons.mp hnd
    rcases List.mem_cons.mp he with h1 | h2
    · subst h1
      rw [sysLookup_cons, if_pos rfl]
    · have hfe : e.1 ≠ k := by
        intro hcontra
        have hmem : e.1 ∈ t.map Prod.fst := List.mem_map_of_mem Prod.fst h2
        exact h0.1 (hcontra ▸ hmem)
      rw [sysLookup_cons, if_neg hfe]
      exact ih h0.2 h2

/-- C2: no preemption of in-flight models.  (a) A successful
`ensure_running` never moves a model with `in_flight > 0` to `Stopped`;
(b) the idle sweeper leaves models with `in_flight > 0` untouched; (c) when
admission fails even after reclaiming every idle (`in_flight = 0`,
`Routing`) model, `ensure_running` fails with `InsufficientMemory` — and
since the error branch returns no new state, every model (in particular the
in-flight one blocking eviction) is left unchanged. -/
theorem C2_no_preemption (free : String → Int) (online : List String)
    (s : SysState) (name : String) (vars : List Variant) (now timeout : ℚ) :
    (∀ (s' : SysState) (m : String) (st st' : MState),
      (s.map Prod.fst).Nodup →
      ensure_running free online s name vars = .ok s' →
      s.lookup m = some st → 0 < st.in_flight → st.status ≠ MStatus.stopped →
      s'.lookup m = some st' → st'.status ≠ MStatus.stopped) ∧
    (∀ (m : String) (st : MState),
      s.lookup m = some st → 0 < st.in_flight →
      (idleSweep s now timeout).lookup m = some st) ∧
    (∀ (st : MState) (v : Variant),
      (∀ e ∈ s, ∀ p ∈ e.2.reserved, (0:Int) ≤ p.2) →
      s.lookup name = some st → st.status ≠ MStatus.routing →
      st.status ≠ MStatus.starting →
      select_variant vars online = some v →
      admissionOkAfter free s
        ((sortByActivity (evictionCandidates s)).map Prod.fst) v = false →
      ensure_running free online s name vars =
        .error CtlError.InsufficientMemory) := by
  refine ⟨?_, ?_, ?_⟩
  · intro s' m st st' hnd hok hlk hpos hnstop hlk'
    unfold ensure_running at hok
    split at hok
    · cases hok
    · split at hok
      · cases hok
        have hst : st = st' := Option.some_inj.mp (hlk.symm.trans hlk')
        exact hst ▸ hnstop
      · cases hok
        have hst : st = st' := Option.some_inj.mp (hlk.symm.trans hlk')
        exact hst ▸ hnstop
      · split at hok
        · cases hok
        · split at hok
          · cases hok
          · rename_i plan hplan
            cases hok
            rw [setStarting_lookup] at hlk'
            by_cases hm : m = name
            · rw [if_pos hm] at hlk'
              rcases Option.map_eq_some'.mp hlk' with ⟨u, -, hu⟩
              intro hcontra
              rw [← hu] at hcontra
              cases hcontra
            · rw [if_neg hm, stopModels_lookup] at hlk'
              by_cases hp : m ∈ plan
              · exfalso
                rcases evictPlan_names free s _ _ _ _ hplan m hp with h0 | ⟨e, he, hen⟩
                · exact List.not_mem_nil m h0
                · have he1 := mem_of_mem_sortByActivity he
                  have he2 := List.mem_filter.mp he1
                  have he3 := of_decide_eq_true he2.2
                  have hlke : s.lookup e.1 = some e.2 :=
                    lookup_of_mem_nodup s hnd e he2.1
                  rw [hen, hlk] at hlke
                  have : st = e.2 := Option.some_inj.mp hlke
                  rw [this] at hpos
                  omega
              · rw [if_neg hp, hlk] at hlk'
                have : st = st' := Option.some_inj.mp hlk'
                exact this ▸ hnstop
  · intro m st hlk hpos
    exact idleSweep_lookup_pos s now timeout m st hlk hpos
  · intro st v hnn hlk hnr hns hsel hfail
    have hplan : evictPlan free s v (sortByActivity (evictionCandidates s)) []
        = none := by
      apply evictPlan_eq_none free s v hnn
      simpa using hfail
    cases hst : st.status with
    | routing => exact absurd hst hnr
    | starting => exact absurd hst hns
    | stopped => simp [ensure_running, hlk, hst, hsel, hplan]
    | failed => simp [ensure_running, hlk, hst, hsel, hplan]

/-- A routing model with one in-flight request, 8000 MB reserved on gA. -/
def stRoute1 : MState := ⟨MStatus.routing, 1, 0, [("gA", 8000)]⟩

/-- A variant that needs 12000 MB on gA. -/
def vBig : Variant := ⟨"V", ["gA"], "m2.bat", [("gA", 12000)]⟩

/-- Scenario S3 of the spec: M1 routing with `in_flight = 1`, M2 stopped. -/
def s2 : SysState := [("M1", stRoute1), ("M2", stStopped)]

/-- The state after M2 is admitted (plenty of free memory): M1 untouched. -/
def s2ok : SysState :=
  [("M1", stRoute1), ("M2", ⟨MStatus.starting, 0, 0, [("gA", 12000)]⟩)]

/-- Witness for C2 at scenario S3: with ample memory M2 starts and the
in-flight M1 stays routing; the sweeper leaves M1 alone; with only 4000 MB
free, `ensure_running M2` fails with `InsufficientMemory` because the only
potential eviction victim M1 has an in-flight request. -/
theorem C2_no_preemption_witness :
    stRoute1.status ≠ MStatus.stopped ∧
    (idleSweep s2 1000000 1).lookup "M1" = some stRoute1 ∧
    ensure_running (fun _ => 4000) ["gA"] s2 "M2" [vBig] =
      Except.error CtlError.InsufficientMemory := by
  refine ⟨?_, ?_, ?_⟩
  · exact (C2_no_preemption (fun _ => 100000) ["gA"] s2 "M2" [vBig] 0 0).1
      s2ok "M1" stRoute1 stRoute1 (by decide) (by rfl) (by decide)
      (by decide) (by decide) (by decide)
  · exact (C2_no_preemption (fun _ => 4000) ["gA"] s2 "M2" [vBig] 1000000 1).2.1
      "M1" stRoute1 (by decide) (by decide)
  · exact (C2_no_preemption (fun _ => 4000) ["gA"] s2 "M2" [vBig] 1000000 1).2.2
      stStopped vBig (by decide) (by decide) (by decide) (by decide)
      (by decide) (by decide)

/-! ## Pricing engine

The tier row shape is from the web UI source
(`src/webui/src/types/api.ts`, `TierPricing`); the matching and cost
semantics are modelled from the spec and the repository's API document
(`src/API接口文档.md`): a tier matches when each token count is strictly
above `min` and at most `max`, `-1` meaning no upper bound; among matching
tiers the lowest `tier_index` wins; an unmatched request costs zero. -/
structure TierPricing where
  tier_index : Nat
  min_input_tokens : Int
  max_input_tokens : Int
  min_output_tokens : Int
  max_output_tokens : Int
  input_price : ℚ
  output_price : ℚ
  support_cache : Bool
  cache_write_price : ℚ
  cache_read_price : ℚ
deriving Repr, DecidableEq

/-- A persisted request record (store schema
`requests(ts, in_tok, out_tok, cache_n, prompt_n)`). -/
structure RequestRecord where
  ts : ℚ
  in_tok : Int
  out_tok : Int
  cache_n : Int
  prompt_n : Int
deriving Repr, DecidableEq

/-- Bound containment: `min < v` and (`max = -1` or `v ≤ max`), per the API
document (`> min`, `<= max`, `-1` = no upper bound). -/
def boundContains (mn mx v : Int) : Bool :=
  decide (mn < v) && (decide (mx = -1) || decide (v ≤ mx))

/-- A tier matches a request when both its input and output ranges contain
the request's token counts. -/
def tierMatches (t : TierPricing) (in_tok out_tok : Int) : Bool :=
  boundContains t.min_input_tokens t.max_input_tokens in_tok &&
  boundContains t.min_output_tokens t.max_output_tokens out_tok

/-- Minimum-`tier_index` element of a tier list (ties keep the earlier). -/
def minIdx : List TierPricing → Option TierPricing
  | [] => none
  | t :: rest =>
    match minIdx rest with
    | none => some t
    | some u => if t.tier_index ≤ u.tier_index then some t else some u

/-- Modelled from the spec: the matched tier is the lowest-`tier_index`
tier whose bounds contain the request. -/
def selectTier (tiers : List TierPricing) (in_tok out_tok : Int) :
    Option TierPricing :=
  minIdx (tiers.filter (fun t => tierMatches t in_tok out_tok))

/-- Cost of a request under a matched tier:
`prompt_n * in_price / 1e6 + out_tok * out_price / 1e6`, plus
`cache_n * cache_read_price / 1e6` exactly when the tier supports cache. -/
def tierCost (t : TierPricing) (r : RequestRecord) : ℚ :=
  (r.prompt_n : ℚ) * t.input_price / 1000000 +
  (r.out_tok : ℚ) * t.output_price / 1000000 +
  (if t.support_cache then (r.cache_n : ℚ) * t.cache_read_price / 1000000 else 0)

/-- Modelled from the spec: tiered request cost — zero when no tier
matches, no error raised. -/
def requestCost (tiers : List TierPricing) (r : RequestRecord) : ℚ :=
  match selectTier tiers r.in_tok r.out_tok with
  | none => 0
  | some t => tierCost t r

theorem minIdx_eq_none_iff (l : List TierPricing) : minIdx l = none ↔ l = [] := by
  cases l with
  | nil => simp [minIdx]
  | cons t rest =>
    rw [minIdx]
    cases minIdx rest with
    | none => simp
    | some u =>
      by_cases h : t.tier_index ≤ u.tier_index
      · simp [h]
      · simp [h]

theorem minIdx_spec (l : List TierPricing) (t : TierPricing)
    (h : minIdx l = some t) :
    t ∈ l ∧ ∀ u ∈ l, t.tier_index ≤ u.tier_index := by
  induction l generalizing t with
  | nil => cases h
  | cons a rest ih =>
    rw [minIdx] at h
    split at h
    · rename_i hm
      have hat : a = t := Option.some_inj.mp h
      subst hat
      have hnil : rest = [] := (minIdx_eq_none_iff rest).mp hm
      subst hnil
      refine ⟨List.mem_singleton_self a, ?_⟩
      intro u hu
      have hu' : u = a := List.mem_singleton.mp hu
      subst hu'
      exact le_rfl
    · rename_i u hm
      have hd := ih u hm
      by_cases hle : a.tier_index ≤ u.tier_index
      · rw [if_pos hle] at h
        have hat : a = t := Option.some_inj.mp h
        subst hat
        refine ⟨List.mem_cons_self a rest, ?_⟩
        intro w hw
        rcases List.mem_cons.mp hw with h1 | h2
        · subst h1; exact le_rfl
        · exact le_trans hle (hd.2 w h2)
      · rw [if_neg hle] at h
        have hut : u = t := Option.some_inj.mp h
        subst hut
        refine ⟨List.mem_cons_of_mem a hd.1, ?_⟩
        intro w hw
        rcases List.mem_cons.mp hw with h1 | h2
        · subst h1; exact le_of_not_le hle
        · exact hd.2 w h2

/-- C3: tiered evaluation selects, among the tiers whose input and output
bounds contain the request (`min < value ≤ max`, `-1` = unbounded), the one
with the lowest `tier_index`; when no tier matches, the request's cost is
zero and no error is raised. -/
theorem C3_tier_selection (tiers : List TierPricing) (r : RequestRecord) :
    (∀ t : TierPricing, selectTier tiers r.in_tok r.out_tok = some t →
      t ∈ tiers ∧ tierMatches t r.in_tok r.out_tok = true ∧
      ∀ u ∈ tiers, tierMatches u r.in_tok r.out_tok = true →
        t.tier_index ≤ u.tier_index) ∧
    ((∀ u ∈ tiers, tierMatches u r.in_tok r.out_tok = false) →
      selectTier tiers r.in_tok r.out_tok = none ∧ requestCost tiers r = 0) := by
  constructor
  · intro t h
    have hs := minIdx_spec _ t h
    have hmem := List.mem_filter.mp hs.1
    refine ⟨hmem.1, hmem.2, ?_⟩
    intro u hu hmu
    exact hs.2 u (List.mem_filter.mpr ⟨hu, hmu⟩)
  · intro hall
    have hfil : tiers.filter (fun t => tierMatches t r.in_tok r.out_tok) = [] := by
      rw [List.filter_eq_nil_iff]
      intro a ha
      rw [hall a ha]
      exact Bool.false_ne_true
    have hnone : selectTier tiers r.in_tok r.out_tok = none := by
      rw [selectTier, hfil, minIdx]
    refine ⟨hnone, ?_⟩
    rw [requestCost, hnone]

/-- Scenario S6 tier 1: input and output up to 1000 tokens, prices 1 and 2
per million, no cache pricing. -/
def s6tier1 : TierPricing := ⟨1, 0, 1000, 0, 1000, 1, 2, false, 0, 0⟩

/-- Scenario S6 tier 2: unbounded ranges, prices 2 and 4 per million,
cache-read price 0.5. -/
def s6tier2 : TierPricing := ⟨2, 0, -1, 0, -1, 2, 4, true, 0, 1/2⟩

/-- Scenario S6 request: `in=1200, out=300, cache_n=400, prompt_n=800`. -/
def s6req : RequestRecord := ⟨0, 1200, 300, 400, 800⟩

theorem s6_select :
    selectTier [s6tier1, s6tier2] s6req.in_tok s6req.out_tok = some s6tier2 := by
  rw [selectTier]
  have h1 : tierMatches s6tier1 s6req.in_tok s6req.out_tok = false := by
    rw [tierMatches, boundContains, boundContains]
    decide
  have h2 : tierMatches s6tier2 s6req.in_tok s6req.out_tok = true := by
    rw [tierMatches, boundContains, boundContains]
    decide
  simp [List.filter_cons, h1, h2, minIdx]

theorem s6_cost : requestCost [s6tier1, s6tier2] s6req = 3 / 1000 := by
  rw [requestCost, s6_select]
  show tierCost s6tier2 s6req = 3 / 1000
  rw [tierCost]
  norm_num [s6tier2, s6req]

/-- Witness for C3 at the S6 tier table: the S6 request matches tier 2 and
tier 2 has the minimal index among matches; against a table holding only
tier 1 the request matches nothing and costs zero. -/
theorem C3_tier_selection_witness :
    (s6tier2 ∈ [s6tier1, s6tier2] ∧
      tierMatches s6tier2 s6req.in_tok s6req.out_tok = true ∧
      ∀ u ∈ [s6tier1, s6tier2], tierMatches u s6req.in_tok s6req.out_tok = true →
        s6tier2.tier_index ≤ u.tier_index) ∧
    (selectTier [s6tier1] s6req.in_tok s6req.out_tok = none ∧
      requestCost [s6tier1] s6req = 0) := by
  constructor
  · exact (C3_tier_selection [s6tier1, s6tier2] s6req).1 s6tier2 s6_select
  · refine (C3_tier_selection [s6tier1] s6req).2 ?_
    intro u hu
    have hu' : u = s6tier1 := List.mem_singleton.mp hu
    subst hu'
    rw [tierMatches, boundContains, boundContains]
    decide

/-- C4: the cost of a request matched to a tier is
`prompt_n * in_price / 1e6 + out_tok * out_price / 1e6`, plus
`cache_n * cache_read_price / 1e6` exactly when the tier supports cache
(the input price applies to `prompt_n`, not to `in_tok`); concretely, the
S6 request matches tier 2 and costs `0.003`. -/
theorem C4_tier_cost (tiers : List TierPricing) (r : RequestRecord)
    (t : TierPricing) :
    (selectTier tiers r.in_tok r.out_tok = some t →
      requestCost tiers r =
        (r.prompt_n : ℚ) * t.input_price / 1000000 +
        (r.out_tok : ℚ) * t.output_price / 1000000 +
        (if t.support_cache then
          (r.cache_n : ℚ) * t.cache_read_price / 1000000 else 0)) ∧
    (selectTier [s6tier1, s6tier2] s6req.in_tok s6req.out_tok = some s6tier2 ∧
      requestCost [s6tier1, s6tier2] s6req = 3 / 1000) := by
  refine ⟨?_, s6_select, s6_cost⟩
  intro h
  rw [requestCost, h]
  rfl

/-- Witness for C4: the cost formula evaluated at the S6 request and its
matched tier 2. -/
theorem C4_tier_cost_witness :
    requestCost [s6tier1, s6tier2] s6req =
      (s6req.prompt_n : ℚ) * s6tier2.input_price / 1000000 +
      (s6req.out_tok : ℚ) * s6tier2.output_price / 1000000 +
      (if s6tier2.support_cache then
        (s6req.cache_n : ℚ) * s6tier2.cache_read_price / 1000000 else 0) :=
  (C4_tier_cost [s6tier1, s6tier2] s6req s6tier2).1 s6_select

/-- Billing configuration errors (spec §7). -/
inductive BillingError
  | TierConflict
  | LastTierDeletion
  | PricingInvalid
deriving Repr, DecidableEq

/-- Modelled from the spec: the DELETE-tier operation removes the tier with
the given index, but is rejected with `LastTierDeletion` when at most one
tier remains; on rejection no new configuration is produced, leaving the
pricing unchanged. -/
def deleteTier (tiers : List TierPricing) (idx : Nat) :
    Except BillingError (List TierPricing) :=
  if tiers.length ≤ 1 then .error .LastTierDeletion
  else .ok (tiers.filter (fun t => decide (t.tier_index ≠ idx)))

/-- From the source (`BillingPricingContent.tsx`, `handleTierDelete`): the
web UI issues the DELETE request only when more than one tier is listed;
with a single tier it shows an error and does not call the API. -/
def handleTierDelete (sortedTiersLength : Nat) : Bool :=
  decide (1 < sortedTiersLength)

/-- C5: deleting a tier is rejected with `LastTierDeletion` (configuration
unchanged) when exactly one tier remains; with more than one tier the
deletion succeeds; and the web UI guard issues the request exactly when
more than one tier is listed. -/
theorem C5_last_tier_deletion (tiers : List TierPricing) (idx : Nat) :
    (tiers.length = 1 →
      deleteTier tiers idx = .error BillingError.LastTierDeletion) ∧
    (1 < tiers.length → ∃ tiers', deleteTier tiers idx = .ok tiers') ∧
    (handleTierDelete tiers.length = true ↔ 1 < tiers.length) := by
  refine ⟨?_, ?_, ?_⟩
  · intro h
    rw [deleteTier, if_pos (by omega)]
  · intro h
    rw [deleteTier, if_neg (by omega)]
    exact ⟨_, rfl⟩
  · simp [handleTierDelete]

/-- Witness for C5: a one-tier table refuses deletion; a two-tier table
allows deleting tier 1. -/
theorem C5_last_tier_deletion_witness :
    deleteTier [s6tier1] 1 = .error BillingError.LastTierDeletion ∧
    ∃ tiers', deleteTier [s6tier1, s6tier2] 1 = .ok tiers' :=
  ⟨(C5_last_tier_deletion [s6tier1] 1).1 (by decide),
   (C5_last_tier_deletion [s6tier1, s6tier2] 1).2.1 (by decide)⟩

/-! ## Vectorised time-bucketed aggregation

Modelled from the spec: the accounting store's vectorised aggregation is
not under `src/`; `src/API接口文档.md` documents the output (`n_samples`
points, each timestamp the end of its sampling interval) and the web UI
types give the five token classes.  The window `[t0, t1]` is split into `N`
buckets of width `dt = (t1 - t0) / N`; bucket `i` covers
`(t0 + i*dt, t0 + (i+1)*dt]`.  The vectorised pass computes all buckets in
one fold over the request records, placing each record by index arithmetic;
the naive reference recomputes each bucket by filtering the records. -/

/-- Array index of the bucket containing timestamp `ts`:
`⌈(ts - t0) / dt⌉ - 1`. -/
def bucketIndex (t0 dt ts : ℚ) : ℤ :=
  ⌈(ts - t0) / dt⌉ - 1

/-- One step of the vectorised pass: add the record's weight to its bucket
when its index lands inside the array. -/
def bucketStep (t0 dt : ℚ) (N : ℕ) (w : RequestRecord → ℚ)
    (acc : ℤ → ℚ) (r : RequestRecord) : ℤ → ℚ :=
  if 0 ≤ bucketIndex t0 dt r.ts ∧ bucketIndex t0 dt r.ts < (N:ℤ) then
    fun j => if j = bucketIndex t0 dt r.ts then acc j + w r else acc j
  else acc

/-- The vectorised (single-pass, bucket-indexed) accumulation. -/
def accumulate (t0 dt : ℚ) (N : ℕ) (w : RequestRecord → ℚ)
    (rs : List RequestRecord) : ℤ → ℚ :=
  rs.foldl (bucketStep t0 dt N w) (fun _ => 0)

/-- Naive per-request accumulation of bucket `i`: sum the weights of the
records whose timestamp lies in `(t0 + i*dt, t0 + (i+1)*dt]`. -/
def naiveBucket (t0 dt : ℚ) (w : RequestRecord → ℚ)
    (rs : List RequestRecord) (i : ℤ) : ℚ :=
  ((rs.filter (fun r =>
    decide (t0 + i * dt < r.ts ∧ r.ts ≤ t0 + (i + 1) * dt))).map w).sum

/-- The vectorised token-total series: `N` points, each carrying its bucket
end time and the bucket's accumulated token sum. -/
def tokenSeries (t0 t1 : ℚ) (N : ℕ) (w : RequestRecord → ℚ)
    (rs : List RequestRecord) : List (ℚ × ℚ) :=
  (List.range N).map (fun (i : ℕ) =>
    (t0 + ((i : ℚ) + 1) * ((t1 - t0) / N),
     accumulate t0 ((t1 - t0) / N) N w rs (i : ℤ)))

/-- The vectorised throughput series: token sums divided by the bucket
width `(t1 - t0) / N`. -/
def throughputSeries (t0 t1 : ℚ) (N : ℕ) (w : RequestRecord → ℚ)
    (rs : List RequestRecord) : List (ℚ × ℚ) :=
  (List.range N).map (fun (i : ℕ) =>
    (t0 + ((i : ℚ) + 1) * ((t1 - t0) / N),
     accumulate t0 ((t1 - t0) / N) N w rs (i : ℤ) / ((t1 - t0) / N)))

/-- The naive reference series. -/
def naiveSeries (t0 t1 : ℚ) (N : ℕ) (w : RequestRecord → ℚ)
    (rs : List RequestRecord) : List (ℚ × ℚ) :=
  (List.range N).map (fun (i : ℕ) =>
    (t0 + ((i : ℚ) + 1) * ((t1 - t0) / N),
     naiveBucket t0 ((t1 - t0) / N) w rs (i : ℤ)))

/-- Token class weights (web UI `ThroughputDataPoint` / spec §4.6):
input tokens. -/
def wInput (r : RequestRecord) : ℚ := r.in_tok

/-- Token class: output tokens. -/
def wOutput (r : RequestRecord) : ℚ := r.out_tok

/-- Token class: total = `in_tok + out_tok`. -/
def wTotal (r : RequestRecord) : ℚ := r.in_tok + r.out_tok

/-- Token class: cache-hit = `cache_n`. -/
def wCacheHit (r : RequestRecord) : ℚ := r.cache_n

/-- Token class: cache-miss = `prompt_n`. -/
def wCacheMiss (r : RequestRecord) : ℚ := r.prompt_n

theorem bucketIndex_eq_iff (t0 dt ts : ℚ) (i : ℤ) (hdt : 0 < dt) :
    bucketIndex t0 dt ts = i ↔
      t0 + i * dt < ts ∧ ts ≤ t0 + (i + 1) * dt := by
  rw [bucketIndex, sub_eq_iff_eq_add, Int.ceil_eq_iff]
  constructor
  · rintro ⟨h1, h2⟩
    have h1' : (i : ℚ) < (ts - t0) / dt := by push_cast at h1; linarith
    have h1'' : (i : ℚ) * dt < ts - t0 := (lt_div_iff₀ hdt).mp h1'
    have h2' : ts - t0 ≤ ((i : ℚ) + 1) * dt := by
      have h3 := (div_le_iff₀ hdt).mp h2
      push_cast at h3
      linarith
    constructor
    · linarith
    · linarith
  · rintro ⟨h1, h2⟩
    constructor
    · have h3 : (i : ℚ) * dt < ts - t0 := by linarith
      have h4 := (lt_div_iff₀ hdt).mpr h3
      push_cast
      linarith
    · have h3 : ts - t0 ≤ ((i : ℚ) + 1) * dt := by linarith
      have h4 := (div_le_iff₀ hdt).mpr h3
      push_cast
      linarith

theorem bucketStep_apply (t0 dt : ℚ) (N : ℕ) (w : RequestRecord → ℚ)
    (acc : ℤ → ℚ) (r : RequestRecord) (i : ℤ) :
    bucketStep t0 dt N w acc r i =
      if bucketIndex t0 dt r.ts = i ∧ 0 ≤ i ∧ i < (N:ℤ) then acc i + w r
      else acc i := by
  rw [bucketStep]
  by_cases hin : (0 ≤ bucketIndex t0 dt r.ts ∧ bucketIndex t0 dt r.ts < (N:ℤ))
  · rw [if_pos hin]
    show (if i = bucketIndex t0 dt r.ts then acc i + w r else acc i) = _
    by_cases hie : i = bucketIndex t0 dt r.ts
    · rw [if_pos hie, if_pos (by omega)]
    · rw [if_neg hie, if_neg (by omega)]
  · rw [if_neg hin, if_neg (by omega)]

theorem foldl_bucketStep (t0 dt : ℚ) (N : ℕ) (w : RequestRecord → ℚ) :
    ∀ (rs : List RequestRecord) (acc : ℤ → ℚ) (i : ℤ),
      rs.foldl (bucketStep t0 dt N w) acc i =
        acc i + ((rs.filter (fun r =>
          decide (bucketIndex t0 dt r.ts = i ∧ 0 ≤ i ∧ i < (N:ℤ)))).map w).sum := by
  intro rs
  induction rs with
  | nil =>
    intro acc i
    simp
  | cons r rest ih =>
    intro acc i
    rw [List.foldl_cons, ih, List.filter_cons]
    by_cases hP : (bucketIndex t0 dt r.ts = i ∧ 0 ≤ i ∧ i < (N:ℤ))
    · rw [if_pos (by exact decide_eq_true hP), bucketStep_apply, if_pos hP,
        List.map_cons, List.sum_cons]
      ring
    · rw [if_neg (by simpa using hP), bucketStep_apply, if_neg hP]

theorem accumulate_eq_naive (t0 dt : ℚ) (hdt : 0 < dt) (N : ℕ)
    (w : RequestRecord → ℚ) (rs : List RequestRecord) (i : ℤ)
    (h0 : 0 ≤ i) (hN : i < (N:ℤ)) :
    accumulate t0 dt N w rs i = naiveBucket t0 dt w rs i := by
  rw [accumulate, foldl_bucketStep, naiveBucket]
  show (0:ℚ) + _ = _
  rw [zero_add]
  have hcongr : ∀ r ∈ rs,
      (decide (bucketIndex t0 dt r.ts = i ∧ 0 ≤ i ∧ i < (N:ℤ))) =
      (decide (t0 + i * dt < r.ts ∧ r.ts ≤ t0 + (i + 1) * dt)) := by
    intro r _
    apply decide_eq_decide.mpr
    rw [bucketIndex_eq_iff t0 dt r.ts i hdt]
    constructor
    · rintro ⟨h1, -, -⟩
      exact h1
    · intro h1
      exact ⟨h1, h0, hN⟩
  rw [List.filter_congr hcongr]

/-- C6: the vectorised bucketed aggregation equals the naive per-request
accumulation: bucket `i` collects exactly the requests with timestamp in
`(t0 + i·dt, t0 + (i+1)·dt]` where `dt = (t1 − t0)/N`; the throughput
series divides each bucket's token sum by `dt`; the series has exactly `N`
points whose timestamps are the bucket end times; and the token classes
are cache-hit = `cache_n`, cache-miss = `prompt_n`,
total = `in_tok + out_tok`. -/
theorem C6_aggregation_equivalence (t0 t1 : ℚ) (N : ℕ)
    (w : RequestRecord → ℚ) (rs : List RequestRecord)
    (ht : t0 < t1) (hN : 0 < N) :
    tokenSeries t0 t1 N w rs = naiveSeries t0 t1 N w rs ∧
    throughputSeries t0 t1 N w rs =
      (naiveSeries t0 t1 N w rs).map
        (fun p => (p.1, p.2 / ((t1 - t0) / N))) ∧
    (tokenSeries t0 t1 N w rs).length = N ∧
    (tokenSeries t0 t1 N w rs).map Prod.fst =
      (List.range N).map (fun (i : ℕ) => t0 + ((i:ℚ) + 1) * ((t1 - t0) / N)) ∧
    wTotal = (fun r => (r.in_tok : ℚ) + (r.out_tok : ℚ)) ∧
    wCacheHit = (fun r => (r.cache_n : ℚ)) ∧
    wCacheMiss = (fun r => (r.prompt_n : ℚ)) := by
  have hdt : 0 < (t1 - t0) / (N:ℚ) := by
    apply div_pos (by linarith)
    exact_mod_cast hN
  refine ⟨?_, ?_, ?_, ?_, rfl, rfl, rfl⟩
  · rw [tokenSeries, naiveSeries]
    apply List.map_congr_left
    intro i hi
    have hiN : i < N := List.mem_range.mp hi
    rw [accumulate_eq_naive t0 ((t1 - t0) / N) hdt N w rs (i:ℤ)
      (Int.ofNat_nonneg i) (by exact_mod_cast hiN)]
  · rw [throughputSeries, naiveSeries, List.map_map]
    apply List.map_congr_left
    intro i hi
    have hiN : i < N := List.mem_range.mp hi
    show (_, _) = (_, _)
    rw [accumulate_eq_naive t0 ((t1 - t0) / N) hdt N w rs (i:ℤ)
      (Int.ofNat_nonneg i) (by exact_mod_cast hiN)]
  · rw [tokenSeries, List.length_map, List.length_range]
  · rw [tokenSeries, List.map_map]
    rfl

/-- Three request records: timestamps 3 and 7 inside the window `[0, 10]`,
one at 12 outside it. -/
def aggReqs : List RequestRecord :=
  [⟨3, 10, 5, 2, 8⟩, ⟨7, 20, 6, 1, 19⟩, ⟨12, 100, 100, 0, 100⟩]

/-- Witness for C6 on a concrete window `[0, 10]` with two buckets and the
total, cache-hit and cache-miss token classes. -/
theorem C6_aggregation_equivalence_witness :
    tokenSeries 0 10 2 wTotal aggReqs = naiveSeries 0 10 2 wTotal aggReqs ∧
    throughputSeries 0 10 2 wCacheHit aggReqs =
      (naiveSeries 0 10 2 wCacheHit aggReqs).map
        (fun p => (p.1, p.2 / ((10 - 0) / 2))) ∧
    (tokenSeries 0 10 2 wCacheMiss aggReqs).length = 2 :=
  ⟨(C6_aggregation_equivalence 0 10 2 wTotal aggReqs (by norm_num) (by norm_num)).1,
   (C6_aggregation_equivalence 0 10 2 wCacheHit aggReqs (by norm_num) (by norm_num)).2.1,
   (C6_aggregation_equivalence 0 10 2 wCacheMiss aggReqs (by norm_num) (by norm_num)).2.2.1⟩

/-! ## Log fan-out subscription

Modelled from the spec: the backend log fan-out is not under `src/`; the
SSE message types and the `{timestamp, message}` entry shape are documented
in `src/core/monitor_manual.md` and consumed by `LogConsole.tsx`.  A
subscription delivers the buffer snapshot as `historical` events in append
order, one `historical_complete` marker, then later appends as `realtime`
events in append order. -/

/-- A log line: `{timestamp, message}`. -/
structure LogEntry where
  timestamp : ℚ
  message : String
deriving Repr, DecidableEq

/-- The SSE message types of the log stream
(`historical | historical_complete | realtime | stream_end | error`). -/
inductive LogEvent
  | historical (log : LogEntry)
  | historicalComplete
  | realtime (log : LogEntry)
  | streamEnd
  | error (msg : String)
deriving Repr, DecidableEq

/-- Modelled from the spec: the sequence of events a subscriber observes,
as a function of the buffer at subscribe time and the lines appended
afterwards. -/
def subscriptionStream (bufferAtSubscribe appendedAfter : List LogEntry) :
    List LogEvent :=
  bufferAtSubscribe.map LogEvent.historical ++
    [LogEvent.historicalComplete] ++ appendedAfter.map LogEvent.realtime

/-- C7: a subscriber first receives every buffered entry as `historical`
events in append order (the historical part is exactly the buffer at
subscribe time, hence a prefix of it), then exactly one
`historical_complete` marker, and afterwards only `realtime` events in
append order; no `realtime` event is delivered before the marker. -/
theorem C7_log_subscription (buf later : List LogEntry) :
    (subscriptionStream buf later).countP
        (fun e => decide (e = LogEvent.historicalComplete)) = 1 ∧
    (subscriptionStream buf later).take buf.length =
      buf.map LogEvent.historical ∧
    (subscriptionStream buf later)[buf.length]? =
      some LogEvent.historicalComplete ∧
    (subscriptionStream buf later).drop (buf.length + 1) =
      later.map LogEvent.realtime ∧
    (∀ e ∈ (subscriptionStream buf later).take (buf.length + 1),
      ∀ l : LogEntry, e ≠ LogEvent.realtime l) := by
  have hlen : (buf.map LogEvent.historical).length = buf.length :=
    List.length_map buf LogEvent.historical
  have hlen2 : (buf.map LogEvent.historical ++ [LogEvent.historicalComplete]).length
      = buf.length + 1 := by
    rw [List.length_append, hlen]
    rfl
  refine ⟨?_, ?_, ?_, ?_, ?_⟩
  · rw [subscriptionStream, List.countP_append, List.countP_append,
      List.countP_map, List.countP_map]
    have h1 : List.countP
        ((fun e => decide (e = LogEvent.historicalComplete)) ∘ LogEvent.historical)
        buf = 0 := by
      rw [List.countP_eq_zero]
      intro a _
      simp
    have h2 : List.countP
        ((fun e => decide (e = LogEvent.historicalComplete)) ∘ LogEvent.realtime)
        later = 0 := by
      rw [List.countP_eq_zero]
      intro a _
      simp
    rw [h1, h2]
    simp [List.countP_cons]
  · rw [subscriptionStream, List.append_assoc, List.take_left' hlen]
  · rw [subscriptionStream, List.append_assoc,
      List.getElem?_append_right (le_of_eq hlen)]
    simp [hlen]
  · rw [subscriptionStream, List.drop_left' hlen2]
  · intro e he l
    rw [subscriptionStream, List.take_left' hlen2] at he
    rcases List.mem_append.mp he with h1 | h2
    · rcases List.mem_map.mp h1 with ⟨x, -, hx⟩
      rw [← hx]
      intro hcontra
      cases hcontra
    · rw [List.mem_singleton.mp h2]
      intro hcontra
      cases hcontra

/-- A two-line buffer for the C7 witness. -/
def bufW : List LogEntry := [⟨1, "L1"⟩, ⟨2, "L2"⟩]

/-- One line appended after subscribing, for the C7 witness. -/
def laterW : List LogEntry := [⟨3, "L3"⟩]

/-- Witness for C7 at a concrete buffer: two historical events, the marker,
one realtime event; the first delivered event is not realtime. -/
theorem C7_log_subscription_witness :
    (subscriptionStream bufW laterW).countP
        (fun e => decide (e = LogEvent.historicalComplete)) = 1 ∧
    (subscriptionStream bufW laterW).take 2 = bufW.map LogEvent.historical ∧
    (subscriptionStream bufW laterW).drop 3 = laterW.map LogEvent.realtime ∧
    LogEvent.historical ⟨1, "L1"⟩ ≠ LogEvent.realtime ⟨3, "L3"⟩ := by
  have h := C7_log_subscription bufW laterW
  exact ⟨h.1, h.2.1, h.2.2.2.1,
    h.2.2.2.2 (LogEvent.historical ⟨1, "L1"⟩) (by decide) ⟨3, "L3"⟩⟩

/-! ## JSON values and the SSE log frame format -/

/-- A JSON value. -/
inductive Json
  | null
  | bool (b : Bool)
  | num (q : ℚ)
  | str (s : String)
  | arr (items : List Json)
  | obj (fields : List (String × Json))
deriving Repr

/-- Escape a character for a JSON string literal. -/
def escapeChar (c : Char) : String :=
  if c = '"' then "\\\"" else if c = '\\' then "\\\\" else String.singleton c

/-- Render a JSON string literal. -/
def renderJString (s : String) : String :=
  "\"" ++ String.join (s.toList.map escapeChar) ++ "\""

mutual

/-- Render a JSON value. -/
def renderJson : Json → String
  | .null => "null"
  | .bool b => cond b "true" "false"
  | .num q => toString q.num ++ (if q.den = 1 then "" else "/" ++ toString q.den)
  | .str s => renderJString s
  | .arr items => "[" ++ renderJsonList items ++ "]"
  | .obj fields => "\x7b" ++ renderJsonFields fields ++ "\x7d"

/-- Render the comma-separated items of a JSON array. -/
def renderJsonList : List Json → String
  | [] => ""
  | [j] => renderJson j
  | j :: rest => renderJson j ++ "," ++ renderJsonList rest

/-- Render the comma-separated fields of a JSON object. -/
def renderJsonFields : List (String × Json) → String
  | [] => ""
  | [(k, j)] => renderJString k ++ ":" ++ renderJson j
  | (k, j) :: rest => renderJString k ++ ":" ++ renderJson j ++ "," ++
      renderJsonFields rest

end

/-- Field lookup on a JSON object (`none` on other values). -/
def getField (j : Json) (key : String) : Option Json :=
  match j with
  | .obj fields => fields.lookup key
  | _ => none

/-- Modelled from the spec: the JSON payload of a log-stream SSE frame, per
`core/monitor_manual.md`: a `type` tag, a `log = {timestamp, message}`
object for the two payload-carrying types, a `message` for errors. -/
def frameJson : LogEvent → Json
  | .historical l => .obj [("type", .str "historical"),
      ("log", .obj [("timestamp", .num l.timestamp), ("message", .str l.message)])]
  | .historicalComplete => .obj [("type", .str "historical_complete")]
  | .realtime l => .obj [("type", .str "realtime"),
      ("log", .obj [("timestamp", .num l.timestamp), ("message", .str l.message)])]
  | .streamEnd => .obj [("type", .str "stream_end")]
  | .error m => .obj [("type", .str "error"), ("message", .str m)]

/-- Modelled from the spec: an SSE frame is the serialised JSON payload
between a `data: ` prefix and a blank line. -/
def frameString (e : LogEvent) : String :=
  "data: " ++ renderJson (frameJson e) ++ "\n\n"

/-- C8: every log SSE frame is `data: {json}` followed by a blank line;
the payload's `type` is one of
`historical, historical_complete, realtime, stream_end, error`; and
whenever a frame carries a log payload, its `log` field is an object with
exactly the fields `timestamp` and `message` — never a plain string. -/
theorem C8_sse_frame_format (e : LogEvent) :
    (frameString e = "data: " ++ renderJson (frameJson e) ++ "\n\n") ∧
    (∃ ty : String, getField (frameJson e) "type" = some (Json.str ty) ∧
      ty ∈ (["historical", "historical_complete", "realtime", "stream_end",
             "error"] : List String)) ∧
    (∀ l : LogEntry, e = LogEvent.historical l ∨ e = LogEvent.realtime l →
      getField (frameJson e) "log" =
        some (Json.obj [("timestamp", Json.num l.timestamp),
                        ("message", Json.str l.message)])) ∧
    (∀ j : Json, getField (frameJson e) "log" = some j →
      ∀ s : String, j ≠ Json.str s) := by
  refine ⟨rfl, ?_, ?_, ?_⟩
  · cases e with
    | historical l => exact ⟨"historical", rfl, by simp⟩
    | historicalComplete => exact ⟨"historical_complete", rfl, by simp⟩
    | realtime l => exact ⟨"realtime", rfl, by simp⟩
    | streamEnd => exact ⟨"stream_end", rfl, by simp⟩
    | error m => exact ⟨"error", rfl, by simp⟩
  · intro l hl
    rcases hl with h | h
    · subst h
      rfl
    · subst h
      rfl
  · intro j hj s
    cases e with
    | historical l =>
      have : j = Json.obj [("timestamp", Json.num l.timestamp),
          ("message", Json.str l.message)] := by
        have h := hj
        rw [show getField (frameJson (LogEvent.historical l)) "log" =
          some (Json.obj [("timestamp", Json.num l.timestamp),
            ("message", Json.str l.message)]) from rfl] at h
        exact (Option.some_inj.mp h).symm
      rw [this]
      intro hcontra
      cases hcontra
    | historicalComplete => cases hj
    | realtime l =>
      have : j = Json.obj [("timestamp", Json.num l.timestamp),
          ("message", Json.str l.message)] := by
        have h := hj
        rw [show getField (frameJson (LogEvent.realtime l)) "log" =
          some (Json.obj [("timestamp", Json.num l.timestamp),
            ("message", Json.str l.message)]) from rfl] at h
        exact (Option.some_inj.mp h).symm
      rw [this]
      intro hcontra
      cases hcontra
    | streamEnd => cases hj
    | error m => cases hj

/-- Witness for C8 at a concrete historical frame. -/
theorem C8_sse_frame_format_witness :
    getField (frameJson (LogEvent.historical ⟨5, "hello"⟩)) "log" =
      some (Json.obj [("timestamp", Json.num 5), ("message", Json.str "hello")]) ∧
    ∀ s : String,
      Json.obj [("timestamp", Json.num 5), ("message", Json.str "hello")] ≠
        Json.str s := by
  have h := C8_sse_frame_format (LogEvent.historical ⟨5, "hello"⟩)
  have hlog := h.2.2.1 ⟨5, "hello"⟩ (Or.inl rfl)
  exact ⟨hlog, fun s => h.2.2.2 _ hlog s⟩

/-! ## Token extraction (embedded from `src/unnamed/part_001`)

The Python source reads:
`data = json.loads(...); if "usage" in data: usage = data["usage"];`
`return usage.get("prompt_tokens", 0), usage.get("completion_tokens", 0)`
with a catch-all `except` returning `(0, 0)`.  `none` for the parse result
models a `json.loads` failure; a non-object `data` or `usage` makes the
Python code raise inside the `try` (caught, yielding `(0, 0)`); a present
field value is returned as-is, whatever its type. -/

/-- `usage.get(...)` on the usage value: field lookups with default 0 when
`usage` is a dict, `(0, 0)` otherwise (the Python `AttributeError` path). -/
def extractFromUsage (u : Json) : Json × Json :=
  match u with
  | Json.obj uf =>
    ((uf.lookup "prompt_tokens").getD (Json.num 0),
     (uf.lookup "completion_tokens").getD (Json.num 0))
  | _ => (Json.num 0, Json.num 0)

/-- From the source: `extract_tokens_from_response`. -/
def extract_tokens_from_response (parsed : Option Json) : Json × Json :=
  match parsed with
  | some (Json.obj fields) =>
    match fields.lookup "usage" with
    | some u => extractFromUsage u
    | none => (Json.num 0, Json.num 0)
  | _ => (Json.num 0, Json.num 0)

/-- From the source: `stream_with_token_logging` collects every chunk,
yields it unchanged, and at stream end extracts tokens from the joined
content and writes a `(timestamp, input, output)` record; the record
write is wrapped in its own try/except and never alters the stream. -/
def stream_with_token_logging (parse : String → Option Json) (ts : ℚ)
    (chunks : List String) : List String × (ℚ × (Json × Json)) :=
  (chunks, (ts, extract_tokens_from_response (parse (String.join chunks))))

/-- A response whose `usage.prompt_tokens` is present but malformed (a
string instead of a number). -/
def badUsage : Json :=
  Json.obj [("usage", Json.obj [("prompt_tokens", Json.str "x")])]

/-- Counterexample to C9 as stated: for a response whose
`usage.prompt_tokens` field is present but malformed (a string), the
extractor returns the malformed value itself, not zero — the claim's
"returns zero for the missing counts" fails for malformed fields. -/
theorem C9_counterexample :
    extract_tokens_from_response (some badUsage) = (Json.str "x", Json.num 0) ∧
    (Json.str "x", Json.num 0) ≠ ((Json.num 0, Json.num 0) : Json × Json) := by
  constructor
  · rfl
  · intro h
    injection h with h1 h2
    cases h1

/-- C9 (amended): extraction is best-effort and total — an unparseable
body, a non-object body, a missing `usage` key, or a non-object `usage`
yield `(0, 0)`; with an object `usage`, each absent field yields zero while
a present field's value is passed through unchanged (even when malformed);
the streaming wrapper always yields the chunks unchanged and always
produces a record, so no extraction failure reaches the client. -/
theorem C9_token_extraction :
    (extract_tokens_from_response none = (Json.num 0, Json.num 0)) ∧
    (∀ d : Json, (∀ fields, d ≠ Json.obj fields) →
      extract_tokens_from_response (some d) = (Json.num 0, Json.num 0)) ∧
    (∀ fields : List (String × Json), fields.lookup "usage" = none →
      extract_tokens_from_response (some (Json.obj fields)) =
        (Json.num 0, Json.num 0)) ∧
    (∀ (fields : List (String × Json)) (u : Json),
      fields.lookup "usage" = some u → (∀ uf, u ≠ Json.obj uf) →
      extract_tokens_from_response (some (Json.obj fields)) =
        (Json.num 0, Json.num 0)) ∧
    (∀ (fields uf : List (String × Json)),
      fields.lookup "usage" = some (Json.obj uf) →
      extract_tokens_from_response (some (Json.obj fields)) =
        ((uf.lookup "prompt_tokens").getD (Json.num 0),
         (uf.lookup "completion_tokens").getD (Json.num 0))) ∧
    (∀ (parse : String → Option Json) (ts : ℚ) (chunks : List String),
      (stream_with_token_logging parse ts chunks).1 = chunks ∧
      (stream_with_token_logging parse ts chunks).2 =
        (ts, extract_tokens_from_response (parse (String.join chunks)))) := by
  refine ⟨rfl, ?_, ?_, ?_, ?_, ?_⟩
  · intro d hd
    cases d with
    | obj fields => exact absurd rfl (hd fields)
    | null => rfl
    | bool b => rfl
    | num q => rfl
    | str s => rfl
    | arr items => rfl
  · intro fields h
    simp only [extract_tokens_from_response, h]
  · intro fields u h hu
    simp only [extract_tokens_from_response, h]
    cases u with
    | obj uf => exact absurd rfl (hu uf)
    | null => rfl
    | bool b => rfl
    | num q => rfl
    | str s => rfl
    | arr items => rfl
  · intro fields uf h
    simp only [extract_tokens_from_response, h]
    rfl
  · intro parse ts chunks
    exact ⟨rfl, rfl⟩

/-- Witness for C9 (amended): a body whose `usage` has no
`completion_tokens` and a malformed `prompt_tokens` still yields a record
and an unchanged stream. -/
theorem C9_token_extraction_witness :
    extract_tokens_from_response
        (some (Json.obj [("id", Json.str "r1")])) = (Json.num 0, Json.num 0) ∧
    extract_tokens_from_response (some (Json.str "oops")) =
      (Json.num 0, Json.num 0) ∧
    (stream_with_token_logging (fun _ => none) 7 ["a", "b"]).1 = ["a", "b"] := by
  refine ⟨?_, ?_, ?_⟩
  · exact (C9_token_extraction).2.2.1 [("id", Json.str "r1")] rfl
  · exact (C9_token_extraction).2.1 (Json.str "oops") (fun fields h => by cases h)
  · exact ((C9_token_extraction).2.2.2.2.2 (fun _ => none) 7 ["a", "b"]).1

/-! ## SSE line loop of `apiService.createLogStream`
(embedded from `src/webui/src/utils/api.ts`)

The read loop splits the buffered text into lines; empty lines are
skipped; a line starting with `data: ` has its remainder passed to
`JSON.parse` inside a try/catch whose catch only logs — a malformed payload
is skipped and the loop continues; other lines are ignored.  `JSON.parse`
is a browser builtin, modelled as a `parse` parameter.  The outer catch
invokes `onError` only for a non-abort failure of the fetch/read itself. -/

/-- `line.trim() === ''`: the line is all whitespace. -/
def isBlankLine (line : String) : Bool :=
  line.toList.all Char.isWhitespace

/-- `line.startsWith('data: ')`. -/
def startsWithData (line : String) : Bool :=
  line.toList.take 6 == "data: ".toList

/-- `line.substring(6)`. -/
def linePayload (line : String) : String :=
  String.mk (line.toList.drop 6)

/-- Messages delivered to `onMessage` by one line of the read loop. -/
def processLine (parse : String → Option Json) (line : String) : List Json :=
  if isBlankLine line then []
  else if startsWithData line then
    match parse (linePayload line) with
    | some d => [d]
    | none => []
  else []

/-- Messages delivered by the loop over a sequence of complete lines. -/
def processLines (parse : String → Option Json) (lines : List String) :
    List Json :=
  lines.flatMap (processLine parse)

/-- How the stream's read phase ends: normal completion, an abort (the
cleanup function), or a fetch/read failure. -/
inductive StreamOutcome
  | completed
  | aborted
  | failed (e : String)
deriving Repr, DecidableEq

/-- From the source (outer catch): `onError` fires only for a non-abort
failure; an `AbortError` is merely logged. -/
def streamErrorCallbacks : StreamOutcome → List String
  | .failed e => [e]
  | _ => []

/-- C10: a `data: ` line whose payload fails to parse is skipped inside the
read loop — it delivers nothing, triggers no error callback, and every
other well-formed frame (before or after it) is still delivered; a
well-formed `data: ` line delivers exactly its parsed payload; `onError`
fires only when the fetch/read itself fails with a non-abort error. -/
theorem C10_malformed_line_skipped (parse : String → Option Json)
    (xs ys : List String) (bad : String) :
    (startsWithData bad = true → parse (linePayload bad) = none →
      processLines parse (xs ++ bad :: ys) = processLines parse (xs ++ ys)) ∧
    (∀ (line : String) (d : Json), isBlankLine line = false →
      startsWithData line = true → parse (linePayload line) = some d →
      processLine parse line = [d]) ∧
    (streamErrorCallbacks StreamOutcome.completed = [] ∧
     streamErrorCallbacks StreamOutcome.aborted = [] ∧
     ∀ e, streamErrorCallbacks (StreamOutcome.failed e) = [e]) := by
  refine ⟨?_, ?_, rfl, rfl, fun e => rfl⟩
  · intro hstart hnone
    have hbad : processLine parse bad = [] := by
      rw [processLine]
      cases ht : isBlankLine bad with
      | true => rw [if_pos rfl]
      | false =>
        rw [if_neg Bool.false_ne_true, if_pos hstart, hnone]
    simp [processLines, hbad]
  · intro line d htrim hstart hparse
    rw [processLine, if_neg (by rw [htrim]; exact Bool.false_ne_true),
      if_pos hstart, hparse]

/-- A concrete stand-in for `JSON.parse`: accepts only the payload `ok`. -/
def pw (s : String) : Option Json :=
  if s = "ok" then some (Json.str "ok") else none

/-- Witness for C10: a malformed middle line is dropped and both
well-formed neighbours are still delivered. -/
theorem C10_malformed_line_skipped_witness :
    processLines pw ["data: ok", "data: \x7b", "data: ok"] =
      processLines pw ["data: ok", "data: ok"] ∧
    processLine pw "data: ok" = [Json.str "ok"] := by
  have h := C10_malformed_line_skipped pw ["data: ok"] ["data: ok"] "data: \x7b"
  exact ⟨h.1 (by decide) rfl,
    h.2.1 "data: ok" (Json.str "ok") (by decide) (by decide) rfl⟩

end LLMManager
